import Mathlib

/-!
Verification of the user-record CRUD service in `src/main.py`.

The service keeps a single SQLite table of user records keyed by the integer
primary key `user_id` and exposes five live endpoints: a filtered list
(`get_users`, the second registration of GET /users, which shadows the first),
a single-record read (`get_user`), create (`create_user`), full-record update
(`update_user`) and delete (`delete_user`).

The store is embedded as a list of records in insertion order.  Each SQL query
pattern of the source is translated directly:
`db.query(UserDB).filter(UserDB.user_id == id).first()` becomes `List.find?`,
`db.add` appends, `db.delete` removes the first matching row, and the
`setattr` loop of `update_user` overwrites every field (the primary key
included) of the first matching row.  The primary-key uniqueness constraint of
the table is part of the model: an UPDATE that would re-key a row onto an
already used key fails at commit (SQLAlchemy raises, surfaced as a 5xx), and
the transaction is discarded.
-/

/-- A user record, mirroring the `UserDB` / `User` models of `src/main.py`.
The `preferences` column is an opaque JSON document that the system never
inspects; it is embedded as a key-value list. -/
structure UserRecord where
  user_id : Int
  name : String
  age : Int
  location : String
  gender : String
  preferences : List (String × String)
  video_clip : String
deriving DecidableEq, Repr

/-- The persisted table, rows in insertion order. -/
abbrev Store := List UserRecord

/-- Domain errors raised by the handlers: `HTTPException(404)`,
`HTTPException(400)`, and a storage-layer fault (constraint violation at
commit, surfaced as a generic 5xx). -/
inductive ApiError where
  | notFound
  | conflict
  | storageFault
deriving DecidableEq, Repr

/-- HTTP status code attached to each error by the handlers. -/
def ApiError.status : ApiError → Nat
  | .notFound => 404
  | .conflict => 400
  | .storageFault => 500

/-- The `detail` message attached to each error by the handlers. -/
def ApiError.detail : ApiError → String
  | .notFound => "User not found"
  | .conflict => "User with this ID already exists"
  | .storageFault => "Internal Server Error"

/-- `db.query(UserDB).filter(UserDB.user_id == id).first()`. -/
def findUser (db : Store) (id : Int) : Option UserRecord :=
  db.find? (fun u => u.user_id == id)

/-- The first registration of `GET /users` (lines 85-87): returns every row.
It is shadowed by the later filtered registration, which is the live route. -/
def get_users_all (db : Store) : List UserRecord :=
  db

/-- `if location: query = query.filter(UserDB.location == location)` —
Python truthiness: `None` and the empty string both skip the filter. -/
def locStage (location : Option String) (query : List UserRecord) : List UserRecord :=
  match location with
  | some l => if l == "" then query else query.filter (fun u => u.location == l)
  | none => query

/-- `if min_age: query = query.filter(UserDB.age >= min_age)` —
`None` and `0` both skip the filter. -/
def minAgeStage (min_age : Option Int) (query : List UserRecord) : List UserRecord :=
  match min_age with
  | some a => if a == 0 then query else query.filter (fun u => a ≤ u.age)
  | none => query

/-- `if max_age: query = query.filter(UserDB.age <= max_age)` —
`None` and `0` both skip the filter. -/
def maxAgeStage (max_age : Option Int) (query : List UserRecord) : List UserRecord :=
  match max_age with
  | some a => if a == 0 then query else query.filter (fun u => u.age ≤ a)
  | none => query

/-- `if gender: query = query.filter(UserDB.gender == gender)` —
`None` and the empty string both skip the filter. -/
def genderStage (gender : Option String) (query : List UserRecord) : List UserRecord :=
  match gender with
  | some g => if g == "" then query else query.filter (fun u => u.gender == g)
  | none => query

/-- The live `GET /users` (lines 156-176): applies the four optional filters
in sequence and returns the remaining rows. -/
def get_users (db : Store) (location : Option String) (min_age : Option Int)
    (max_age : Option Int) (gender : Option String) : List UserRecord :=
  genderStage gender (maxAgeStage max_age (minAgeStage min_age (locStage location db)))

/-- `GET /users/{user_id}` (lines 90-96). -/
def get_user (db : Store) (user_id : Int) : Except ApiError UserRecord :=
  match findUser db user_id with
  | some user => Except.ok user
  | none => Except.error ApiError.notFound

/-- `POST /users` (lines 100-112): reject if the key is taken, else append
the new row and return it. -/
def create_user (db : Store) (user : UserRecord) : Except ApiError (UserRecord × Store) :=
  match findUser db user.user_id with
  | some _ => Except.error ApiError.conflict
  | none => Except.ok (user, db ++ [user])

/-- The `setattr` loop of `update_user`: every field of the first row whose
key is `id`, the primary key `user_id` included, is overwritten with the
values of `r`. -/
def replaceFirst : Store → Int → UserRecord → Store
  | [], _, _ => []
  | u :: rest, id, r =>
      if u.user_id == id then r :: rest else u :: replaceFirst rest id r

/-- `PUT /users/{user_id}` (lines 115-129): 404 if the key is absent;
otherwise overwrite every field of the row from the body.  Because the body's
`user_id` is copied too, the UPDATE re-keys the row; if the new key already
belongs to another row the commit violates the primary-key constraint and the
transaction is discarded (5xx). -/
def update_user (db : Store) (user_id : Int) (updated_user : UserRecord) :
    Except ApiError (UserRecord × Store) :=
  match findUser db user_id with
  | none => Except.error ApiError.notFound
  | some _ =>
      if updated_user.user_id != user_id && (findUser db updated_user.user_id).isSome then
        Except.error ApiError.storageFault
      else
        Except.ok (updated_user, replaceFirst db user_id updated_user)

/-- `DELETE /users/{user_id}` (the live second registration, lines 144-154):
404 if absent, else remove the row and return the confirmation message. -/
def delete_user (db : Store) (user_id : Int) : Except ApiError (String × Store) :=
  match findUser db user_id with
  | none => Except.error ApiError.notFound
  | some _ =>
      Except.ok ("User " ++ toString user_id ++ " deleted successfully",
        db.eraseP (fun u => u.user_id == user_id))

/-- An inbound request to one of the live routes. -/
inductive Request where
  | getFilteredReq : Option String → Option Int → Option Int → Option String → Request
  | getByIdReq : Int → Request
  | createReq : UserRecord → Request
  | replaceReq : Int → UserRecord → Request
  | deleteReq : Int → Request
deriving DecidableEq, Repr

/-- An HTTP response body. -/
inductive Response where
  | userList : List UserRecord → Response
  | userRec : UserRecord → Response
  | message : String → Response
  | err : ApiError → Response
deriving DecidableEq, Repr

/-- The request handler: dispatches a request to the matching endpoint and
returns the response together with the table state afterwards.  Error paths
return before any mutating statement, so they leave the table as it was. -/
def handle (db : Store) : Request → Response × Store
  | .getFilteredReq l mn mx g => (Response.userList (get_users db l mn mx g), db)
  | .getByIdReq id =>
      match get_user db id with
      | .ok u => (Response.userRec u, db)
      | .error e => (Response.err e, db)
  | .createReq r =>
      match create_user db r with
      | .ok (u, db') => (Response.userRec u, db')
      | .error e => (Response.err e, db)
  | .replaceReq id r =>
      match update_user db id r with
      | .ok (u, db') => (Response.userRec u, db')
      | .error e => (Response.err e, db)
  | .deleteReq id =>
      match delete_user db id with
      | .ok (m, db') => (Response.message m, db')
      | .error e => (Response.err e, db)

/-- The table state after serving a sequence of requests. -/
def runOps (db : Store) (reqs : List Request) : Store :=
  reqs.foldl (fun s r => (handle s r).2) db

/-- The primary keys of the table, in row order. -/
def keys (db : Store) : List Int :=
  db.map (fun u => u.user_id)

/-- The primary-key constraint of the `users` table: no two rows share a
`user_id`. -/
def Keyed (db : Store) : Prop :=
  (keys db).Nodup

/-- The location predicate the live list route enforces (true when the
parameter is omitted or falsy). -/
def locPasses : Option String → UserRecord → Bool
  | none, _ => true
  | some l, u => l == "" || u.location == l

/-- The inclusive lower age bound the live list route enforces. -/
def minAgePasses : Option Int → UserRecord → Bool
  | none, _ => true
  | some a, u => a == 0 || decide (a ≤ u.age)

/-- The inclusive upper age bound the live list route enforces. -/
def maxAgePasses : Option Int → UserRecord → Bool
  | none, _ => true
  | some a, u => a == 0 || decide (u.age ≤ a)

/-- The gender predicate the live list route enforces. -/
def genderPasses : Option String → UserRecord → Bool
  | none, _ => true
  | some g, u => g == "" || u.gender == g

/-- The conjunction of the four filter predicates. -/
def passesFilters (l : Option String) (mn mx : Option Int) (g : Option String)
    (u : UserRecord) : Bool :=
  locPasses l u && minAgePasses mn u && maxAgePasses mx u && genderPasses g u

/-- Ann, the record of scenario 1 of the spec. -/
def exA : UserRecord :=
  { user_id := 1, name := "Ann", age := 25, location := "NYC", gender := "F",
    preferences := [], video_clip := "a.mp4" }

/-- A full replacement for Ann keeping the same key. -/
def exA2 : UserRecord :=
  { user_id := 1, name := "Anna", age := 26, location := "SF", gender := "F",
    preferences := [("likes", "hiking")], video_clip := "a2.mp4" }

/-- Bob, a record with a different key. -/
def exB : UserRecord :=
  { user_id := 2, name := "Bob", age := 30, location := "LA", gender := "M",
    preferences := [], video_clip := "b.mp4" }

/-! ### Basic lemmas about the store -/

@[simp]
lemma keys_cons (u : UserRecord) (rest : Store) :
    keys (u :: rest) = u.user_id :: keys rest := rfl

lemma mem_keys_iff (db : Store) (x : Int) :
    x ∈ keys db ↔ ∃ u ∈ db, u.user_id = x := by
  simp [keys]

lemma findUser_eq_none_iff (db : Store) (id : Int) :
    findUser db id = none ↔ ∀ u ∈ db, u.user_id ≠ id := by
  simp [findUser, List.find?_eq_none]

lemma findUser_eq_none_iff_not_mem_keys (db : Store) (id : Int) :
    findUser db id = none ↔ id ∉ keys db := by
  rw [findUser_eq_none_iff, mem_keys_iff]
  constructor
  · rintro h ⟨u, hu, hx⟩
    exact h u hu hx
  · intro h u hu hx
    exact h ⟨u, hu, hx⟩

lemma findUser_append_none (db l : Store) (k : Int) (h : findUser db k = none) :
    findUser (db ++ l) k = findUser l k := by
  unfold findUser at h ⊢
  rw [List.find?_append, h, Option.none_or]

/-! ### The filter stages -/

lemma locStage_eq_filter (l : Option String) (q : List UserRecord) :
    locStage l q = q.filter (locPasses l) := by
  match l with
  | none =>
      simp only [locStage, locPasses]
      exact (List.filter_eq_self.mpr (fun _ _ => rfl)).symm
  | some s =>
      by_cases h : s = ""
      · simp only [locStage, locPasses, h]
        simp only [beq_self_eq_true, if_true, Bool.true_or]
        exact (List.filter_eq_self.mpr (fun _ _ => rfl)).symm
      · have hb : (s == "") = false := beq_eq_false_iff_ne.mpr h
        simp only [locStage, hb, Bool.false_eq_true, if_false]
        refine List.filter_congr ?_
        intro u _
        simp [locPasses, hb]

lemma minAgeStage_eq_filter (mn : Option Int) (q : List UserRecord) :
    minAgeStage mn q = q.filter (minAgePasses mn) := by
  match mn with
  | none =>
      simp only [minAgeStage, minAgePasses]
      exact (List.filter_eq_self.mpr (fun _ _ => rfl)).symm
  | some a =>
      by_cases h : a = 0
      · simp only [minAgeStage, minAgePasses, h]
        simp only [beq_self_eq_true, if_true, Bool.true_or]
        exact (List.filter_eq_self.mpr (fun _ _ => rfl)).symm
      · have hb : (a == 0) = false := beq_eq_false_iff_ne.mpr h
        simp only [minAgeStage, hb, Bool.false_eq_true, if_false]
        refine List.filter_congr ?_
        intro u _
        simp [minAgePasses, hb]

lemma maxAgeStage_eq_filter (mx : Option Int) (q : List UserRecord) :
    maxAgeStage mx q = q.filter (maxAgePasses mx) := by
  match mx with
  | none =>
      simp only [maxAgeStage, maxAgePasses]
      exact (List.filter_eq_self.mpr (fun _ _ => rfl)).symm
  | some a =>
      by_cases h : a = 0
      · simp only [maxAgeStage, maxAgePasses, h]
        simp only [beq_self_eq_true, if_true, Bool.true_or]
        exact (List.filter_eq_self.mpr (fun _ _ => rfl)).symm
      · have hb : (a == 0) = false := beq_eq_false_iff_ne.mpr h
        simp only [maxAgeStage, hb, Bool.false_eq_true, if_false]
        refine List.filter_congr ?_
        intro u _
        simp [maxAgePasses, hb]

lemma genderStage_eq_filter (g : Option String) (q : List UserRecord) :
    genderStage g q = q.filter (genderPasses g) := by
  match g with
  | none =>
      simp only [genderStage, genderPasses]
      exact (List.filter_eq_self.mpr (fun _ _ => rfl)).symm
  | some s =>
      by_cases h : s = ""
      · simp only [genderStage, genderPasses, h]
        simp only [beq_self_eq_true, if_true, Bool.true_or]
        exact (List.filter_eq_self.mpr (fun _ _ => rfl)).symm
      · have hb : (s == "") = false := beq_eq_false_iff_ne.mpr h
        simp only [genderStage, hb, Bool.false_eq_true, if_false]
        refine List.filter_congr ?_
        intro u _
        simp [genderPasses, hb]

lemma get_users_eq_filter (db : Store) (l : Option String) (mn mx : Option Int)
    (g : Option String) :
    get_users db l mn mx g = db.filter (passesFilters l mn mx g) := by
  unfold get_users
  rw [locStage_eq_filter, minAgeStage_eq_filter, maxAgeStage_eq_filter, genderStage_eq_filter,
    List.filter_filter, List.filter_filter, List.filter_filter]
  refine List.filter_congr ?_
  intro u _
  simp only [passesFilters]
  cases locPasses l u <;> cases minAgePasses mn u <;> cases maxAgePasses mx u <;>
    cases genderPasses g u <;> rfl

/-! ### Lemmas about `replaceFirst` (the UPDATE of `update_user`) -/

lemma keys_replaceFirst_subset (db : Store) (id : Int) (r : UserRecord) (x : Int)
    (hx : x ∈ keys (replaceFirst db id r)) : x = r.user_id ∨ x ∈ keys db := by
  induction db with
  | nil => simp [replaceFirst, keys] at hx
  | cons u rest ih =>
      by_cases hu : u.user_id = id
      · simp only [replaceFirst, hu, beq_self_eq_true, if_true, keys_cons] at hx
        rcases List.mem_cons.mp hx with h | h
        · exact Or.inl h
        · exact Or.inr (List.mem_cons_of_mem _ h)
      · have hb : (u.user_id == id) = false := beq_eq_false_iff_ne.mpr hu
        simp only [replaceFirst, hb, Bool.false_eq_true, if_false, keys_cons] at hx
        rcases List.mem_cons.mp hx with h | h
        · exact Or.inr (h ▸ List.mem_cons_self _ _)
        · rcases ih h with h' | h'
          · exact Or.inl h'
          · exact Or.inr (List.mem_cons_of_mem _ h')

lemma keyed_replaceFirst (db : Store) (id : Int) (r : UserRecord)
    (h : Keyed db) (hguard : r.user_id = id ∨ findUser db r.user_id = none) :
    Keyed (replaceFirst db id r) := by
  induction db with
  | nil => simpa [replaceFirst] using h
  | cons u rest ih =>
      rw [Keyed, keys_cons, List.nodup_cons] at h
      have hguard' : r.user_id = id ∨ findUser rest r.user_id = none := by
        rcases hguard with hg | hg
        · exact Or.inl hg
        · refine Or.inr ((findUser_eq_none_iff _ _).mpr ?_)
          intro v hv
          exact (findUser_eq_none_iff _ _).mp hg v (List.mem_cons_of_mem _ hv)
      by_cases hu : u.user_id = id
      · have hr : r.user_id ∉ keys rest := by
          rcases hguard with hg | hg
          · rw [hg, ← hu]
            exact h.1
          · rw [← findUser_eq_none_iff_not_mem_keys]
            rcases hguard' with hg' | hg'
            · rw [hg', ← hu, findUser_eq_none_iff]
              intro v hv hvid
              exact h.1 ((mem_keys_iff _ _).mpr ⟨v, hv, hvid⟩)
            · exact hg'
        simp only [replaceFirst, hu, beq_self_eq_true, if_true, Keyed, keys_cons,
          List.nodup_cons]
        exact ⟨hr, h.2⟩
      · have hne : u.user_id ≠ r.user_id := by
          rcases hguard with hg | hg
          · rw [hg]
            exact hu
          · intro heq
            exact (findUser_eq_none_iff _ _).mp hg u (List.mem_cons_self _ _) heq
        have hb : (u.user_id == id) = false := beq_eq_false_iff_ne.mpr hu
        simp only [replaceFirst, hb, Bool.false_eq_true, if_false, Keyed, keys_cons,
          List.nodup_cons]
        refine ⟨?_, ih h.2 hguard'⟩
        intro hmem
        rcases keys_replaceFirst_subset rest id r _ hmem with h' | h'
        · exact hne h'
        · exact h.1 h'

lemma findUser_replaceFirst (db : Store) (id : Int) (r u : UserRecord)
    (hfound : findUser db id = some u)
    (hkey : r.user_id = id ∨ findUser db r.user_id = none) :
    findUser (replaceFirst db id r) r.user_id = some r := by
  induction db with
  | nil => simp [findUser] at hfound
  | cons v rest ih =>
      by_cases hv : v.user_id = id
      · simp only [replaceFirst, hv, beq_self_eq_true, if_true, findUser]
        exact List.find?_cons_of_pos _ (by simp)
      · have hb : (v.user_id == id) = false := beq_eq_false_iff_ne.mpr hv
        have hfound' : findUser rest id = some u := by
          unfold findUser at hfound
          rwa [List.find?_cons_of_neg _ (by simp [hv])] at hfound
        have hne : v.user_id ≠ r.user_id := by
          rcases hkey with hg | hg
          · rw [hg]
            exact hv
          · intro heq
            exact (findUser_eq_none_iff _ _).mp hg v (List.mem_cons_self _ _) heq
        have hkey' : r.user_id = id ∨ findUser rest r.user_id = none := by
          rcases hkey with hg | hg
          · exact Or.inl hg
          · refine Or.inr ((findUser_eq_none_iff _ _).mpr ?_)
            intro w hw
            exact (findUser_eq_none_iff _ _).mp hg w (List.mem_cons_of_mem _ hw)
        simp only [replaceFirst, hb, Bool.false_eq_true, if_false, findUser]
        rw [List.find?_cons_of_neg _ (by simp [hne])]
        exact ih hfound' hkey'

/-! ### Lemmas about `eraseP` (the DELETE of `delete_user`) -/

lemma keyed_eraseP (db : Store) (p : UserRecord → Bool) (h : Keyed db) :
    Keyed (db.eraseP p) := by
  have hsub : List.Sublist (keys (db.eraseP p)) (keys db) :=
    List.Sublist.map _ (List.eraseP_sublist db)
  exact List.Nodup.sublist hsub h

lemma findUser_eraseP_self (db : Store) (id : Int) (u : UserRecord)
    (h : Keyed db) (hfound : findUser db id = some u) :
    findUser (db.eraseP (fun v => v.user_id == id)) id = none := by
  induction db with
  | nil => simp [findUser] at hfound
  | cons v rest ih =>
      rw [Keyed, keys_cons, List.nodup_cons] at h
      by_cases hv : v.user_id = id
      · rw [List.eraseP_cons_of_pos (by simp [hv])]
        rw [findUser_eq_none_iff]
        intro w hw hwid
        exact h.1 ((mem_keys_iff _ _).mpr ⟨w, hw, by rw [hwid, hv]⟩)
      · have hfound' : findUser rest id = some u := by
          unfold findUser at hfound
          rwa [List.find?_cons_of_neg _ (by simp [hv])] at hfound
        rw [List.eraseP_cons_of_neg (by simp [hv])]
        unfold findUser
        rw [List.find?_cons_of_neg _ (by simp [hv])]
        exact ih h.2 hfound'

/-! ### Inversion lemmas for the mutating endpoints -/

lemma create_user_ok (db : Store) (r u : UserRecord) (db' : Store)
    (h : create_user db r = Except.ok (u, db')) :
    findUser db r.user_id = none ∧ u = r ∧ db' = db ++ [r] := by
  unfold create_user at h
  rcases hf : findUser db r.user_id with _ | v <;> rw [hf] at h
  · simp only [Except.ok.injEq, Prod.mk.injEq] at h
    exact ⟨rfl, h.1.symm, h.2.symm⟩
  · simp at h

lemma update_user_ok (db : Store) (id : Int) (r u : UserRecord) (db' : Store)
    (h : update_user db id r = Except.ok (u, db')) :
    (findUser db id).isSome = true ∧ (r.user_id = id ∨ findUser db r.user_id = none) ∧
      u = r ∧ db' = replaceFirst db id r := by
  unfold update_user at h
  rcases hf : findUser db id with _ | v <;> rw [hf] at h
  · simp at h
  · by_cases hg : (r.user_id != id && (findUser db r.user_id).isSome) = true
    · rw [if_pos hg] at h
      simp at h
    · rw [if_neg hg] at h
      simp only [Except.ok.injEq, Prod.mk.injEq] at h
      refine ⟨rfl, ?_, h.1.symm, h.2.symm⟩
      rw [Bool.and_eq_true, not_and_or] at hg
      rcases hg with hk | hk
      · left
        simpa [bne] using hk
      · right
        rcases hfk : findUser db r.user_id with _ | w
        · rfl
        · rw [hfk] at hk
          simp at hk

lemma delete_user_ok (db : Store) (id : Int) (m : String) (db' : Store)
    (h : delete_user db id = Except.ok (m, db')) :
    (findUser db id).isSome = true ∧
      m = "User " ++ toString id ++ " deleted successfully" ∧
      db' = db.eraseP (fun u => u.user_id == id) := by
  unfold delete_user at h
  rcases hf : findUser db id with _ | v <;> rw [hf] at h
  · simp at h
  · simp only [Except.ok.injEq, Prod.mk.injEq] at h
    exact ⟨rfl, h.1.symm, h.2.symm⟩

lemma keyed_append_fresh (db : Store) (r : UserRecord)
    (h : Keyed db) (hfresh : findUser db r.user_id = none) :
    Keyed (db ++ [r]) := by
  induction db with
  | nil => simp [Keyed, keys]
  | cons u rest ih =>
      rw [Keyed, keys_cons, List.nodup_cons] at h
      have hfresh' : findUser rest r.user_id = none := by
        rw [findUser_eq_none_iff]
        intro v hv
        exact (findUser_eq_none_iff _ _).mp hfresh v (List.mem_cons_of_mem _ hv)
      have hne : u.user_id ≠ r.user_id :=
        (findUser_eq_none_iff _ _).mp hfresh u (List.mem_cons_self _ _)
      rw [List.cons_append, Keyed, keys_cons, List.nodup_cons]
      refine ⟨?_, ih h.2 hfresh'⟩
      intro hmem
      rcases (mem_keys_iff _ _).mp hmem with ⟨v, hv, hvid⟩
      rcases List.mem_append.mp hv with hv' | hv'
      · exact h.1 ((mem_keys_iff _ _).mpr ⟨v, hv', hvid⟩)
      · rw [List.mem_singleton.mp hv'] at hvid
        exact hne hvid.symm

/-- Serving any single request preserves the primary-key constraint. -/
lemma keyed_handle (db : Store) (h : Keyed db) (req : Request) :
    Keyed (handle db req).2 := by
  match req with
  | .getFilteredReq l mn mx g => exact h
  | .getByIdReq id =>
      rcases hres : get_user db id with u | e <;> simp only [handle, hres] <;> exact h
  | .createReq r =>
      rcases hres : create_user db r with e | ⟨u, db'⟩
      · simp only [handle, hres]
        exact h
      · simp only [handle, hres]
        obtain ⟨hfresh, _, hdb'⟩ := create_user_ok db r u db' hres
        rw [hdb']
        exact keyed_append_fresh db r h hfresh
  | .replaceReq id r =>
      rcases hres : update_user db id r with e | ⟨u, db'⟩
      · simp only [handle, hres]
        exact h
      · simp only [handle, hres]
        obtain ⟨_, hguard, _, hdb'⟩ := update_user_ok db id r u db' hres
        rw [hdb']
        exact keyed_replaceFirst db id r h hguard
  | .deleteReq id =>
      rcases hres : delete_user db id with e | ⟨m, db'⟩
      · simp only [handle, hres]
        exact h
      · simp only [handle, hres]
        obtain ⟨_, _, hdb'⟩ := delete_user_ok db id m db' hres
        rw [hdb']
        exact keyed_eraseP db _ h

lemma keyed_runOps (db : Store) (h : Keyed db) (reqs : List Request) :
    Keyed (runOps db reqs) := by
  induction reqs generalizing db with
  | nil => exact h
  | cons r rest ih =>
      exact ih _ (keyed_handle db h r)

/-! ### The claims -/

/-- C1 counterexample: with the store holding only Ann (key 1), replacing at
path id 1 with a body whose `user_id` is 2 succeeds, but the record is no
longer retrievable at the path id 1 — the lookup returns NotFound instead of
the replacement record, so the path id is not authoritative. -/
theorem replace_ignores_path_key_counterexample :
    update_user [exA] 1 exB = Except.ok (exB, [exB]) ∧
    get_user [exB] 1 = Except.error ApiError.notFound := by
  constructor <;> rfl

/-- C1 (amended): Replace(id, r2) overwrites every field of the record found
at id, the key included, so the result is exactly r2 with no merge, and it is
retrievable at r2's own `user_id` (which is the path id exactly when
r2.user_id = id).  The re-keying is only accepted when r2's key is the path id
or is not already in use. -/
theorem replace_then_get_at_new_key (db : Store) (id : Int) (r2 u : UserRecord)
    (hfound : findUser db id = some u)
    (hkey : r2.user_id = id ∨ findUser db r2.user_id = none) :
    update_user db id r2 = Except.ok (r2, replaceFirst db id r2) ∧
    get_user (replaceFirst db id r2) r2.user_id = Except.ok r2 := by
  constructor
  · unfold update_user
    rw [hfound]
    rcases hkey with hk | hk
    · simp [hk]
    · simp [hk]
  · unfold get_user
    rw [findUser_replaceFirst db id r2 u hfound hkey]

theorem replace_then_get_at_new_key_witness :
    update_user [exA] 1 exA2 = Except.ok (exA2, replaceFirst [exA] 1 exA2) ∧
    get_user (replaceFirst [exA] 1 exA2) exA2.user_id = Except.ok exA2 :=
  replace_then_get_at_new_key [exA] 1 exA2 exA rfl (Or.inl rfl)

/-- C2 counterexample: with location supplied as the empty string, the list
operation returns Ann even though her location is not the empty string, so
the result is not the set satisfying the supplied location equality. -/
theorem getFiltered_falsy_location_counterexample :
    get_users [exA] (some "") none none none = [exA] ∧ exA.location ≠ "" := by
  constructor
  · rfl
  · decide

/-- C2 (amended): GetFiltered returns exactly the records satisfying the
conjunction of the supplied truthy predicates — a predicate supplied with a
falsy value (empty string for location/gender, 0 for min_age/max_age) imposes
no constraint, just like an omitted one; location/gender are exact string
equality, min_age/max_age inclusive bounds.  With no predicates supplied the
result equals GetAll. -/
theorem getFiltered_conjunction (db : Store) (l : Option String) (mn mx : Option Int)
    (g : Option String) :
    get_users db l mn mx g = db.filter (passesFilters l mn mx g) ∧
    get_users db none none none none = get_users_all db := by
  refine ⟨get_users_eq_filter db l mn mx g, ?_⟩
  rw [get_users_eq_filter]
  unfold get_users_all
  exact List.filter_eq_self.mpr (fun _ _ => rfl)

/-- C3 counterexample: a record created with user_id 1 is re-keyed by
Replace(1, r2) to r2's user_id 2 — after the sequence the store holds the
record under key 2 and no record under key 1, so a record's user_id does
change after creation. -/
theorem user_id_immutability_counterexample :
    runOps [] [Request.createReq exA, Request.replaceReq 1 exB] = [exB] ∧
    exA.user_id = 1 ∧ exB.user_id = 2 ∧
    findUser (runOps [] [Request.createReq exA, Request.replaceReq 1 exB]) 1 = none := by
  exact ⟨rfl, rfl, rfl, rfl⟩

/-- C3 (amended): starting from a store satisfying it, every sequence of
requests preserves the invariant that each user_id identifies at most one
record (the primary-key constraint rejects a conflicting re-key); however a
record's user_id is not immutable — Replace overwrites it with the body's
user_id. -/
theorem user_id_unique_invariant (db : Store) (h : Keyed db) (reqs : List Request) :
    Keyed (runOps db reqs) :=
  keyed_runOps db h reqs

theorem user_id_unique_invariant_witness :
    Keyed (runOps [] [Request.createReq exA, Request.createReq exB, Request.deleteReq 1]) :=
  user_id_unique_invariant [] (by simp [Keyed, keys]) _

/-- C4: creating a record whose user_id is already present returns Conflict
(HTTP 400 with message "User with this ID already exists"), the store is
unchanged, and the original record is still the one found at that key. -/
theorem create_conflict_unchanged (db : Store) (user u0 : UserRecord)
    (h : findUser db user.user_id = some u0) :
    create_user db user = Except.error ApiError.conflict ∧
    handle db (Request.createReq user) = (Response.err ApiError.conflict, db) ∧
    ApiError.conflict.status = 400 ∧
    ApiError.conflict.detail = "User with this ID already exists" ∧
    findUser db user.user_id = some u0 := by
  have hc : create_user db user = Except.error ApiError.conflict := by
    unfold create_user
    rw [h]
  exact ⟨hc, by simp [handle, hc], rfl, rfl, h⟩

theorem create_conflict_unchanged_witness :
    create_user [exA] exA2 = Except.error ApiError.conflict ∧
    handle [exA] (Request.createReq exA2) = (Response.err ApiError.conflict, [exA]) ∧
    ApiError.conflict.status = 400 ∧
    ApiError.conflict.detail = "User with this ID already exists" ∧
    findUser [exA] exA2.user_id = some exA :=
  create_conflict_unchanged [exA] exA2 exA rfl

/-- C5: creating a record whose user_id is absent succeeds, appends exactly
that record, and a subsequent GetByID at its user_id returns a record equal
to it in every field. -/
theorem create_roundtrip (db : Store) (r : UserRecord)
    (h : findUser db r.user_id = none) :
    create_user db r = Except.ok (r, db ++ [r]) ∧
    get_user (db ++ [r]) r.user_id = Except.ok r := by
  constructor
  · unfold create_user
    rw [h]
  · unfold get_user
    rw [findUser_append_none db [r] r.user_id h]
    unfold findUser
    rw [List.find?_cons_of_pos _ (by simp)]

theorem create_roundtrip_witness :
    create_user [] exA = Except.ok (exA, [] ++ [exA]) ∧
    get_user ([] ++ [exA]) exA.user_id = Except.ok exA :=
  create_roundtrip [] exA rfl

/-- C6: deleting an existing record succeeds with the confirmation message
embedding the deleted id, after which GetByID at that id returns NotFound
(HTTP 404 "User not found") and a second Delete also returns NotFound. -/
theorem delete_finality (db : Store) (id : Int) (u : UserRecord)
    (hk : Keyed db) (hfound : findUser db id = some u) :
    delete_user db id =
      Except.ok ("User " ++ toString id ++ " deleted successfully",
        db.eraseP (fun v => v.user_id == id)) ∧
    get_user (db.eraseP (fun v => v.user_id == id)) id = Except.error ApiError.notFound ∧
    delete_user (db.eraseP (fun v => v.user_id == id)) id = Except.error ApiError.notFound ∧
    ApiError.notFound.status = 404 ∧ ApiError.notFound.detail = "User not found" := by
  have hnone := findUser_eraseP_self db id u hk hfound
  refine ⟨?_, ?_, ?_, rfl, rfl⟩
  · unfold delete_user
    rw [hfound]
  · unfold get_user
    rw [hnone]
  · unfold delete_user
    rw [hnone]

theorem delete_finality_witness :
    delete_user [exA] 1 =
      Except.ok ("User " ++ toString (1 : Int) ++ " deleted successfully",
        [exA].eraseP (fun v => v.user_id == 1)) ∧
    get_user ([exA].eraseP (fun v => v.user_id == 1)) 1 = Except.error ApiError.notFound ∧
    delete_user ([exA].eraseP (fun v => v.user_id == 1)) 1 = Except.error ApiError.notFound ∧
    ApiError.notFound.status = 404 ∧ ApiError.notFound.detail = "User not found" :=
  delete_finality [exA] 1 exA (by simp [Keyed, keys]) rfl

/-- C7: the age filters are inclusive — a record whose age equals the
supplied min_age (resp. max_age) passes that bound, so it appears in the
GetFiltered result whenever the other supplied predicates hold of it. -/
theorem age_bounds_inclusive (db : Store) (l g : Option String) (mno mxo : Option Int)
    (mn mx : Int) (u : UserRecord)
    (hmem : u ∈ db) (hl : locPasses l u = true) (hgen : genderPasses g u = true)
    (hmn : u.age = mn) (hmx : u.age = mx)
    (hminP : minAgePasses mno u = true) (hmaxP : maxAgePasses mxo u = true) :
    u ∈ get_users db l (some mn) mxo g ∧ u ∈ get_users db l mno (some mx) g := by
  constructor
  · rw [get_users_eq_filter, List.mem_filter]
    refine ⟨hmem, ?_⟩
    simp [passesFilters, hl, hgen, hmaxP, minAgePasses, ← hmn]
  · rw [get_users_eq_filter, List.mem_filter]
    refine ⟨hmem, ?_⟩
    simp [passesFilters, hl, hgen, hminP, maxAgePasses, ← hmx]

theorem age_bounds_inclusive_witness :
    exA ∈ get_users [exA] none (some 25) none none ∧
    exA ∈ get_users [exA] none none (some 25) none :=
  age_bounds_inclusive [exA] none none none none 25 25 exA
    (List.mem_singleton.mpr rfl) rfl rfl rfl rfl rfl rfl

/-- C8: the read operations — the list route with any or no filters, and the
single-record read — leave the table state unchanged. -/
theorem reads_leave_store_unchanged (db : Store) (id : Int) (l g : Option String)
    (mn mx : Option Int) :
    (handle db (Request.getFilteredReq none none none none)).2 = db ∧
    (handle db (Request.getByIdReq id)).2 = db ∧
    (handle db (Request.getFilteredReq l mn mx g)).2 = db := by
  refine ⟨rfl, ?_, rfl⟩
  rcases hres : get_user db id with u | e <;> simp [handle, hres]

/-- C9: a filter parameter supplied with a falsy value is treated exactly as
if it were omitted — empty-string location/gender and zero min_age/max_age
impose no constraint. -/
theorem falsy_filters_ignored (db : Store) (l g : Option String) (mn mx : Option Int) :
    get_users db (some "") mn mx g = get_users db none mn mx g ∧
    get_users db l (some 0) mx g = get_users db l none mx g ∧
    get_users db l mn (some 0) g = get_users db l mn none g ∧
    get_users db l mn mx (some "") = get_users db l mn mx none := by
  refine ⟨?_, ?_, ?_, ?_⟩ <;> unfold get_users <;>
    simp [locStage, minAgeStage, maxAgeStage, genderStage]

/-- C10: when no record is at id, Replace and Delete both signal NotFound and
the handler leaves the table exactly as it was. -/
theorem notfound_error_paths_unchanged (db : Store) (id : Int) (r : UserRecord)
    (h : findUser db id = none) :
    update_user db id r = Except.error ApiError.notFound ∧
    delete_user db id = Except.error ApiError.notFound ∧
    handle db (Request.replaceReq id r) = (Response.err ApiError.notFound, db) ∧
    handle db (Request.deleteReq id) = (Response.err ApiError.notFound, db) := by
  have h1 : update_user db id r = Except.error ApiError.notFound := by
    unfold update_user
    rw [h]
  have h2 : delete_user db id = Except.error ApiError.notFound := by
    unfold delete_user
    rw [h]
  exact ⟨h1, h2, by simp [handle, h1], by simp [handle, h2]⟩

theorem notfound_error_paths_unchanged_witness :
    update_user [exA] 2 exB = Except.error ApiError.notFound ∧
    delete_user [exA] 2 = Except.error ApiError.notFound ∧
    handle [exA] (Request.replaceReq 2 exB) = (Response.err ApiError.notFound, [exA]) ∧
    handle [exA] (Request.deleteReq 2) = (Response.err ApiError.notFound, [exA]) :=
  notfound_error_paths_unchanged [exA] 2 exB rfl
